import Mathlib

/-!
Shallow embedding of `simple_graph_etl` (files `documentlibrary.py` and
`simpleetl.py`).  The HTTP transport, the local filesystem and the token
provider are external collaborators: each operation takes the remote
responses as explicit inputs (status codes, parsed JSON entries, a
download function) and returns the sequence of outward effects it performs
(requests issued, directories created, files written) together with its
result, `Except` modelling a Python `raise`.
-/

namespace SimpleGraphETL

/-- A child entry of a listing response, as consumed by the client.  Python
reads the JSON dict by key (`obj['name']`, `obj['id']`, `obj['file']`,
`obj['@microsoft.graph.downloadUrl']`); a field is `none` when the key is
absent, and reading an absent key is a `KeyError`.  The `file` facet is used
only for its truthiness, so it is embedded as a `Bool`. -/
structure Entry where
  name : Option String
  id : Option String
  file : Option Bool
  downloadUrl : Option String
deriving Repr, DecidableEq

/-- The failure outcomes of the client, one constructor per `raise` site of
the source (plus `keyError` for Python's implicit `KeyError` on a missing
dict key).  `writeFailed` stands for the wrapped re-raise in `fetch`'s
`except` block, whatever the inner exception was. -/
inductive ETLError where
  | keyError (field : String)
  | badListResponse (status : Nat)
  | badFetchResponse (name : String) (status : Nat)
  | writeFailed
  | itemInfoNotFound (name : String)
  | deleteFailed (name : String) (status : Nat)
  | uploadSessionFailed (status : Nat)
  | uploadFailed (status : Nat)
  | authFailed (detail : Option String)
deriving Repr, DecidableEq

deriving instance DecidableEq for Except

/-- Python dict access `obj[field]`: the value when present, `KeyError`
otherwise. -/
def getKey {α : Type} (field : String) : Option α → Except ETLError α
  | some v => Except.ok v
  | none => Except.error (ETLError.keyError field)

/-- Observable side effects of an operation: HTTP requests issued and local
filesystem mutations, in order. -/
inductive Effect where
  | getReq (url : String)
  | deleteReq (url : String)
  | postReq (url : String)
  | putReq (url : String) (contentLength : String) (contentRange : String) (body : String)
  | mkdir (path : String)
  | write (path : String) (content : String)
deriving Repr, DecidableEq

/-- Embedding of `DocumentLibrary.get_base_url`.  The Python source continues the
f-string literal over a line break with a backslash; the space before the
backslash and the 12 spaces of indentation of the continuation line are part
of the string, so 13 literal spaces sit between `sites/` and the site id. -/
def get_base_url (site_id res_id : String) : String :=
  "https://graph.microsoft.com/v1.0/sites/ " ++ "            "
    ++ site_id ++ "/drives/" ++ res_id

/-- Embedding of `DocumentLibrary`: configuration holder; `base_url` is a stored field. -/
structure DocumentLibrary where
  client_id : String
  site_id : String
  res_id : String
  authority : String
  scope : String
  base_url : String
deriving Repr, DecidableEq

/-- Embedding of `DocumentLibrary.__init__`: stores the five inputs and computes
`base_url` once, from `site_id` and `res_id` only. -/
def DocumentLibrary.construct (client_id site_id res_id authority scope : String) :
    DocumentLibrary :=
  { client_id := client_id, site_id := site_id, res_id := res_id,
    authority := authority, scope := scope,
    base_url := get_base_url site_id res_id }

/-- Loop body of `SimpleETL.__get_item_id`: iterates over all items, and on
every item whose `name` equals the target overwrites the accumulator with
that item's `id` (the Python loop has no `break`). -/
def get_item_id_loop (target_name : String) :
    List Entry → String → Except ETLError String
  | [], item_id => Except.ok item_id
  | item :: rest, item_id =>
    match getKey "name" item.name with
    | Except.error e => Except.error e
    | Except.ok n =>
      if n = target_name then
        match getKey "id" item.id with
        | Except.error e => Except.error e
        | Except.ok i => get_item_id_loop target_name rest i
      else get_item_id_loop target_name rest item_id

/-- Embedding of `SimpleETL.__get_item_id`: starts from the empty string accumulator. -/
def get_item_id (file_items : List Entry) (target_name : String) :
    Except ETLError String :=
  get_item_id_loop target_name file_items ""

/-- Loop of `SimpleETL.filenames` over the listing's `value` array: appends
`obj['name']` for every entry whose `obj['file']` is truthy. -/
def filenames_loop : List Entry → Except ETLError (List String)
  | [] => Except.ok []
  | obj :: rest =>
    match getKey "file" obj.file with
    | Except.error e => Except.error e
    | Except.ok f =>
      if f then
        match getKey "name" obj.name with
        | Except.error e => Except.error e
        | Except.ok n =>
          match filenames_loop rest with
          | Except.error e => Except.error e
          | Except.ok tail => Except.ok (n :: tail)
      else filenames_loop rest

/-- Embedding of `SimpleETL.filenames`: on a 200 listing response, filters the entries to
the truthy-`file` ones and collects their names in order; any other status
raises. -/
def filenames (list_status : Nat) (entries : List Entry) :
    Except ETLError (List String) :=
  if list_status = 200 then filenames_loop entries
  else Except.error (ETLError.badListResponse list_status)

/-- The character class of the regex `^(\\|\/)+|(\\|\/)+$` used in `fetch`:
forward slash or backslash. -/
def isSlash (c : Char) : Bool := c = '/' || c = '\\'

/-- Embedding of `re.sub(r'^(\\|\/)+|(\\|\/)+$', '', local_path)`: removes the maximal
run of slash/backslash characters at the start and at the end of the
string. -/
def clean_path (local_path : String) : String :=
  String.mk (((local_path.data.dropWhile isSlash).reverse.dropWhile isSlash).reverse)

/-- Embedding of `os.path.join(d, f)` (POSIX), for the cases the client exercises. -/
def joinPath (d f : String) : String :=
  if f.data.head? = some '/' then f
  else if d = "" || d.data.getLast? = some '/' then d ++ f
  else d ++ "/" ++ f

/-- Loop of `SimpleETL.fetch` over the listing entries.  Inputs: the
download transport (`download url = (status, body)`), the cleaned local
directory `cp`, the entries, and whether `cp` currently exists on disk.
Output: the effects performed, the directory-exists flag after the loop, and
the result.  Per entry: skip when `obj['file']` is falsy; read
`obj['@microsoft.graph.downloadUrl']` (KeyError when absent); GET it; on 200
create the directory when missing and write the body to
`os.path.join(cp, obj['name'])`; on any other status raise naming the entry;
a failure inside the write block is re-raised as `writeFailed`. -/
def fetch_loop (download : String → Nat × String) (cp : String) :
    List Entry → Bool → List Effect × Bool × Except ETLError Unit
  | [], dir_exists => ([], dir_exists, Except.ok ())
  | obj :: rest, dir_exists =>
    match getKey "file" obj.file with
    | Except.error e => ([], dir_exists, Except.error e)
    | Except.ok f =>
      if !f then fetch_loop download cp rest dir_exists
      else
        match getKey "@microsoft.graph.downloadUrl" obj.downloadUrl with
        | Except.error e => ([], dir_exists, Except.error e)
        | Except.ok url =>
          let status := (download url).1
          if status = 200 then
            let mk_effects := if dir_exists then [] else [Effect.mkdir cp]
            match obj.name with
            | none => ([Effect.getReq url] ++ mk_effects, true, Except.error ETLError.writeFailed)
            | some nm =>
              let here := [Effect.getReq url] ++ mk_effects
                ++ [Effect.write (joinPath cp nm) (download url).2]
              let next := fetch_loop download cp rest true
              (here ++ next.1, next.2.1, next.2.2)
          else
            match obj.name with
            | none => ([Effect.getReq url], dir_exists, Except.error (ETLError.keyError "name"))
            | some nm =>
              ([Effect.getReq url], dir_exists,
                Except.error (ETLError.badFetchResponse nm status))

/-- Embedding of `SimpleETL.fetch`: on a 200 listing response runs the download loop with
the cleaned `local_path`; any other listing status raises.  The listing
request itself is the operation's input, so the trace holds the per-entry
effects. -/
def fetch (list_status : Nat) (entries : List Entry)
    (download : String → Nat × String) (local_path : String)
    (dir_exists : Bool) : List Effect × Except ETLError Unit :=
  if list_status = 200 then
    let out := fetch_loop download (clean_path local_path) entries dir_exists
    (out.1, out.2.2)
  else ([], Except.error (ETLError.badListResponse list_status))

/-- Embedding of `SimpleETL.delete`: on a 200 listing response resolves the item id with
`__get_item_id`; when the resolved id is nonempty issues one DELETE to
`<base_url>/items/<item_id>` (status 204 is success, anything else raises),
and when it is empty raises without any DELETE. -/
def delete (base_url : String) (list_status : Nat) (entries : List Entry)
    (file_name : String) (delete_status : String → Nat) :
    List Effect × Except ETLError Unit :=
  if list_status = 200 then
    match get_item_id entries file_name with
    | Except.error e => ([], Except.error e)
    | Except.ok item_id =>
      if item_id ≠ "" then
        let st := delete_status item_id
        ([Effect.deleteReq (base_url ++ "/items/" ++ item_id)],
          if st = 204 then Except.ok ()
          else Except.error (ETLError.deleteFailed file_name st))
      else ([], Except.error (ETLError.itemInfoNotFound file_name))
  else ([], Except.error (ETLError.badListResponse list_status))

/-- The upload-session URL built by `SimpleETL.upload`.  As in
`get_base_url`, the f-string is continued over a line break, so the space
before the backslash and the 12 indentation spaces are part of the URL. -/
def upload_session_url (base_url remote_path file_name : String) : String :=
  base_url ++ "/root:/ " ++ "            " ++ remote_path ++ "/" ++ file_name
    ++ ":/createUploadSession"

/-- Embedding of `SimpleETL.upload`: POSTs the upload-session request; on status 200
reads `uploadUrl` from the response (KeyError when absent), then issues one
PUT of the whole local file content with headers
`Content-Length = f'\x7bfile_size\x7d'` and
`Content-Range = f'bytes 0-\x7bfile_size - 1\x7d/\x7bfile_size\x7d'`
(Python ints, so size 0 yields `-1`); status 201 is success and any other
PUT status raises (re-raised from the `except` block).  A non-200 session
status raises.  The local file is the pair `(file_size, content)`. -/
def upload (base_url remote_path file_name : String) (session_status : Nat)
    (uploadUrl : Option String) (file_size : Nat) (content : String)
    (put_status : Nat) : List Effect × Except ETLError Unit :=
  let session_url := upload_session_url base_url remote_path file_name
  if session_status = 200 then
    match uploadUrl with
    | none => ([Effect.postReq session_url],
        Except.error (ETLError.keyError "uploadUrl"))
    | some url =>
      let content_length := toString file_size
      let content_range :=
        "bytes 0-" ++ toString ((file_size : Int) - 1) ++ "/" ++ toString file_size
      ([Effect.postReq session_url,
        Effect.putReq url content_length content_range content],
        if put_status = 201 then Except.ok ()
        else Except.error (ETLError.uploadFailed put_status))
  else ([Effect.postReq session_url],
    Except.error (ETLError.uploadSessionFailed session_status))

/-- Result dict of an msal token call: `access_token` and `error` keys, each
possibly absent. -/
structure TokenResult where
  access_token : Option String
  error : Option String
deriving Repr, DecidableEq

/-- Outcome of `SimpleETL.__acquire_token`: the scopes list passed to
`acquire_token_for_client` when that explicit request was made (`none` when
the silent attempt already returned a result), and the token or the raised
error. -/
structure AcquireOutcome where
  explicit_scopes : Option (List String)
  result : Except ETLError String
deriving Repr

/-- Embedding of `SimpleETL.__acquire_token`: tries `acquire_token_silent` first (its
response is the `silent` input, `none` when the provider has nothing
cached); if that yielded no result, calls `acquire_token_for_client` with
scopes `[self.library.scope]`; returns `result['access_token']` when the key
is present and otherwise raises `Exception(result.get('error'))`. -/
def acquire_token (scope : String) (silent : Option TokenResult)
    (for_client : List String → TokenResult) : AcquireOutcome :=
  match silent with
  | some result =>
    { explicit_scopes := none,
      result :=
        match result.access_token with
        | some t => Except.ok t
        | none => Except.error (ETLError.authFailed result.error) }
  | none =>
    let result := for_client [scope]
    { explicit_scopes := some [scope],
      result :=
        match result.access_token with
        | some t => Except.ok t
        | none => Except.error (ETLError.authFailed result.error) }

/-- The transfer client: a library reference and the token stored at
construction. -/
structure SimpleETL where
  library : DocumentLibrary
  token : String
deriving Repr, DecidableEq

/-- Embedding of `SimpleETL.__init__`: acquires the token eagerly and stores it; the
constructor fails when acquisition raised. -/
def SimpleETL.construct (library : DocumentLibrary) (silent : Option TokenResult)
    (for_client : List String → TokenResult) : Except ETLError SimpleETL :=
  match (acquire_token library.scope silent for_client).result with
  | Except.ok t => Except.ok { library := library, token := t }
  | Except.error e => Except.error e


/-! Helper lemmas about the scanning loop of `__get_item_id`. -/

/-- Scanning helper: when every entry carries a `name` key (and every entry
matching the target carries an `id` key), the `__get_item_id` loop returns
the id of the LAST entry whose name equals the target, or the accumulator
when none matches. -/
lemma get_item_id_loop_last (target : String) (l : List Entry) :
    ∀ (acc : String),
      (∀ e ∈ l, e.name.isSome = true) →
      (∀ e ∈ l, e.name = some target → e.id.isSome = true) →
      get_item_id_loop target l acc =
        Except.ok
          (match (l.filter (fun x => x.name == some target)).getLast? with
            | some e => e.id.getD ""
            | none => acc) := by
  induction l with
  | nil => intro acc _ _; simp [get_item_id_loop]
  | cons x xs ih =>
    intro acc h1 h2
    obtain ⟨n, hn⟩ := Option.isSome_iff_exists.mp (h1 x (List.mem_cons_self x xs))
    have h1' : ∀ e ∈ xs, e.name.isSome = true := fun e he => h1 e (List.mem_cons_of_mem x he)
    have h2' : ∀ e ∈ xs, e.name = some target → e.id.isSome = true :=
      fun e he => h2 e (List.mem_cons_of_mem x he)
    by_cases ht : n = target
    · subst ht
      obtain ⟨i, hi⟩ := Option.isSome_iff_exists.mp (h2 x (List.mem_cons_self x xs) hn)
      have hrec := ih i h1' h2'
      rw [get_item_id_loop]
      simp only [getKey, hn, hi, if_pos rfl]
      rw [hrec]
      have hpx : (x.name == some n) = true := by simp [hn]
      simp only [List.filter_cons, hpx, if_pos rfl]
      cases hfx : xs.filter (fun y => y.name == some n) with
      | nil => simp [hfx, hi]
      | cons y ys =>
        simp [hfx, List.getLast?_cons_cons]
        cases hz : (y :: ys).getLast? with
        | none => simp [List.getLast?_eq_none_iff] at hz
        | some z => simp
    · have hpx : (x.name == some target) = false := by simp [hn, ht]
      have hrec := ih acc h1' h2'
      rw [get_item_id_loop]
      simp only [getKey, hn]
      rw [if_neg ht, hrec]
      simp only [List.filter_cons, hpx]
      simp

/-- C2: the claim states that the derived base URL is exactly
`https://graph.microsoft.com/v1.0/sites/<site_id>/drives/<res_id>` with
nothing else inserted.  The source continues the f-string over a line break
with a backslash, which keeps the space before the backslash and the 12
indentation spaces inside the string, so the constructed base URL carries 13
extra spaces between `sites/` and the site id.  Evaluating the embedded
constructor at site id `S` and resource id `R` exhibits the divergence. -/
theorem C2_base_url_whitespace :
    (DocumentLibrary.construct "C" "S" "R" "A" "P").base_url
        = "https://graph.microsoft.com/v1.0/sites/             S/drives/R" ∧
    (DocumentLibrary.construct "C" "S" "R" "A" "P").base_url
        ≠ "https://graph.microsoft.com/v1.0/sites/S/drives/R" ∧
    (DocumentLibrary.construct "C" "S" "R" "A" "P").base_url
        = get_base_url "S" "R" := by
  refine ⟨rfl, ?_, rfl⟩
  decide

/-- C10: for a zero-byte local file, `upload` still issues the PUT, with
`Content-Length` equal to `"0"` and `Content-Range` equal to the malformed
string `"bytes 0--1/0"` (Python computes `file_size - 1 = -1`); there is no
guard for the empty-file case, and the response-status handling is the same
as for any other upload. -/
theorem C10_empty_upload_range (base_url remote_path file_name uploadUrl content : String)
    (put_status : Nat) :
    upload base_url remote_path file_name 200 (some uploadUrl) 0 content put_status
      = ([Effect.postReq (upload_session_url base_url remote_path file_name),
          Effect.putReq uploadUrl "0" "bytes 0--1/0" content],
         if put_status = 201 then Except.ok ()
         else Except.error (ETLError.uploadFailed put_status)) := by
  rfl

/-- C9: construction attempts the silent (cached) acquisition first; only
when it yields no result is the explicit client-credential request made,
scoped to the configuration scope; when the final result has no access
token the construction fails with the authentication error carrying the
provider-reported detail, and otherwise the access token is stored in the
client. -/
theorem C9_token_acquisition_flow (lib : DocumentLibrary) (silent : Option TokenResult)
    (for_client : List String → TokenResult) :
    (acquire_token lib.scope silent for_client).explicit_scopes
        = (if silent.isSome then none else some [lib.scope]) ∧
    (acquire_token lib.scope silent for_client).result
        = (match (silent.getD (for_client [lib.scope])).access_token with
           | some t => Except.ok t
           | none => Except.error
               (ETLError.authFailed (silent.getD (for_client [lib.scope])).error)) ∧
    SimpleETL.construct lib silent for_client
        = (match (silent.getD (for_client [lib.scope])).access_token with
           | some t => Except.ok { library := lib, token := t }
           | none => Except.error
               (ETLError.authFailed (silent.getD (for_client [lib.scope])).error)) := by
  cases silent with
  | none =>
    refine ⟨rfl, ?_, ?_⟩ <;>
      cases h : (for_client [lib.scope]).access_token <;>
        simp [acquire_token, SimpleETL.construct, h]
  | some r =>
    refine ⟨rfl, ?_, ?_⟩ <;>
      cases h : r.access_token <;>
        simp [acquire_token, SimpleETL.construct, h]

/-- C1: the claim states that when several listed entries carry the target
name, the FIRST matching entry id is used for the delete request.  The
source loop has no `break`, so a later match overwrites an earlier one: with
two entries both named `a` (ids `1` and `2`), the delete request goes to
item `2`, not item `1`. -/
theorem C1_first_match_counterexample :
    (delete "B" 200 [⟨some "a", some "1", some true, none⟩,
                     ⟨some "a", some "2", some true, none⟩] "a" (fun _ => 204)).1
        = [Effect.deleteReq "B/items/2"] ∧
    (delete "B" 200 [⟨some "a", some "1", some true, none⟩,
                     ⟨some "a", some "2", some true, none⟩] "a" (fun _ => 204)).1
        ≠ [Effect.deleteReq "B/items/1"] := by
  decide

/-- C1 (amended): `delete` resolves the item id by scanning the listed
entries for name equal to `file_name` (case-sensitive), and when several
entries carry that name the LAST matching entry id is the one used for the
delete request. -/
theorem C1_last_match_resolution (base_url : String) (entries : List Entry)
    (file_name : String) (delete_status : String → Nat)
    (h1 : ∀ e ∈ entries, e.name.isSome = true)
    (h2 : ∀ e ∈ entries, e.name = some file_name → e.id.isSome = true)
    (e : Entry)
    (hlast : (entries.filter (fun x => x.name == some file_name)).getLast? = some e)
    (i : String) (hid : e.id = some i) (hne : i ≠ "") :
    delete base_url 200 entries file_name delete_status
      = ([Effect.deleteReq (base_url ++ "/items/" ++ i)],
         if delete_status i = 204 then Except.ok ()
         else Except.error (ETLError.deleteFailed file_name (delete_status i))) := by
  have hscan := get_item_id_loop_last file_name entries "" h1 h2
  rw [hlast] at hscan
  simp only [hid, Option.getD_some] at hscan
  simp only [delete, get_item_id, if_pos rfl]
  rw [hscan]
  simp [hne]

/-- Witness for C1 at a concrete duplicate-name listing. -/
theorem C1_last_match_resolution_witness :
    (∀ e ∈ ([⟨some "a", some "1", some true, none⟩,
             ⟨some "a", some "2", some true, none⟩] : List Entry), e.name.isSome = true) ∧
    (([⟨some "a", some "1", some true, none⟩,
       ⟨some "a", some "2", some true, none⟩] : List Entry).filter
        (fun x => x.name == some "a")).getLast?
      = some ⟨some "a", some "2", some true, none⟩ ∧
    delete "B" 200 [⟨some "a", some "1", some true, none⟩,
                    ⟨some "a", some "2", some true, none⟩] "a" (fun _ => 204)
      = ([Effect.deleteReq ("B" ++ "/items/" ++ "2")],
         if (204 : Nat) = 204 then Except.ok ()
         else Except.error (ETLError.deleteFailed "a" 204)) := by
  refine ⟨by decide, by decide, ?_⟩
  exact C1_last_match_resolution "B" _ "a" (fun _ => 204) (by decide) (by decide)
    ⟨some "a", some "2", some true, none⟩ (by decide) "2" rfl (by decide)

/-- C7: when the listing succeeds but contains no entry named `file_name`,
`delete` raises the not-found error and issues no delete request at all (the
effect trace is empty). -/
theorem C7_delete_not_found (base_url : String) (entries : List Entry)
    (file_name : String) (delete_status : String → Nat)
    (h1 : ∀ e ∈ entries, e.name.isSome = true)
    (h2 : ∀ e ∈ entries, e.name ≠ some file_name) :
    delete base_url 200 entries file_name delete_status
      = ([], Except.error (ETLError.itemInfoNotFound file_name)) := by
  have h2' : ∀ e ∈ entries, e.name = some file_name → e.id.isSome = true :=
    fun e he hx => absurd hx (h2 e he)
  have hfil : entries.filter (fun x => x.name == some file_name) = [] := by
    rw [List.filter_eq_nil_iff]
    intro a ha
    simp [h2 a ha]
  have hscan := get_item_id_loop_last file_name entries "" h1 h2'
  rw [hfil] at hscan
  simp only [List.getLast?_nil] at hscan
  simp only [delete, get_item_id, if_pos rfl]
  rw [hscan]
  simp

/-- Witness for C7 at a concrete listing without the target name. -/
theorem C7_delete_not_found_witness :
    (∀ e ∈ ([⟨some "x", some "1", some true, none⟩] : List Entry), e.name ≠ some "nope") ∧
    delete "B" 200 [⟨some "x", some "1", some true, none⟩] "nope" (fun _ => 204)
      = ([], Except.error (ETLError.itemInfoNotFound "nope")) := by
  refine ⟨by decide, ?_⟩
  exact C7_delete_not_found "B" _ "nope" (fun _ => 204) (by decide) (by decide)

/-- Splitting the `fetch` loop after a successfully processed segment: the
segment effects come first, and the rest of the listing is processed with
the directory flag the segment left behind. -/
lemma fetch_loop_ok_append (download : String → Nat × String) (cp : String)
    (post : List Entry) (pre : List Entry) :
    ∀ (d : Bool) (effs : List Effect) (d1 : Bool),
      fetch_loop download cp pre d = (effs, d1, Except.ok ()) →
      fetch_loop download cp (pre ++ post) d =
        (effs ++ (fetch_loop download cp post d1).1,
         (fetch_loop download cp post d1).2.1,
         (fetch_loop download cp post d1).2.2) := by
  induction pre with
  | nil =>
    intro d effs d1 h
    rw [fetch_loop] at h
    rw [Prod.mk.injEq] at h
    obtain ⟨h1, h2⟩ := h
    rw [Prod.mk.injEq] at h2
    obtain ⟨h2, _⟩ := h2
    subst h1
    subst h2
    simp
  | cons x xs ih =>
    intro d effs d1 h
    rw [List.cons_append]
    rw [fetch_loop] at h ⊢
    cases hf : x.file with
    | none =>
      rw [hf] at h
      simp [getKey] at h
    | some f =>
      rw [hf] at h
      cases f with
      | false =>
        simp only [getKey, Bool.not_false, if_true] at h ⊢
        exact ih d effs d1 h
      | true =>
        simp only [getKey, Bool.not_true, Bool.false_eq_true, if_false] at h ⊢
        cases hu : x.downloadUrl with
        | none =>
          rw [hu] at h
          simp [getKey] at h
        | some url =>
          rw [hu] at h
          by_cases hs : (download url).1 = 200
          · simp only [getKey, hs, if_true] at h ⊢
            cases hn : x.name with
            | none =>
              rw [hn] at h
              simp at h
            | some nm =>
              rw [hn] at h
              simp only [Prod.mk.injEq] at h
              obtain ⟨h1, h2, h3⟩ := h
              have hP : fetch_loop download cp xs true
                  = ((fetch_loop download cp xs true).1, d1, Except.ok ()) := by
                rw [← h2, ← h3]
              have hih := ih true (fetch_loop download cp xs true).1 d1 hP
              rw [hih]
              simp [← h1, List.append_assoc]
          · simp only [getKey, hs, if_false] at h ⊢
            cases hn : x.name with
            | none =>
              rw [hn] at h
              simp at h
            | some nm =>
              rw [hn] at h
              simp at h

/-- C3: the claim states that a file-marked entry without a
downloadable-content URL is skipped silently and processing continues.  The
source reads `obj['@microsoft.graph.downloadUrl']` unguarded, so such an
entry raises a missing-key error and aborts the whole fetch: with a URL-less
file entry followed by a downloadable one, fetch errors and nothing at all
is written, refuting both the silent skip and the continuation. -/
theorem C3_silent_skip_counterexample :
    fetch 200 [⟨some "f1", some "1", some true, none⟩,
               ⟨some "f2", some "2", some true, some "u"⟩]
        (fun _ => (200, "data")) "out" false
      = ([], Except.error (ETLError.keyError "@microsoft.graph.downloadUrl")) := by
  rfl

/-- C3 (amended): a file-marked entry that lacks the downloadable-content
URL field is not skipped: `fetch` aborts at that entry with the missing-key
error, writes no local file for it, and processes none of the remaining
entries (the effect trace stops with the successfully processed prefix). -/
theorem C3_missing_url_aborts (download : String → Nat × String) (local_path : String)
    (d : Bool) (pre post : List Entry) (e : Entry) (effs : List Effect) (d1 : Bool)
    (hfile : e.file = some true) (hurl : e.downloadUrl = none)
    (hpre : fetch_loop download (clean_path local_path) pre d = (effs, d1, Except.ok ())) :
    fetch 200 (pre ++ e :: post) download local_path d
      = (effs, Except.error (ETLError.keyError "@microsoft.graph.downloadUrl")) := by
  have happ := fetch_loop_ok_append download (clean_path local_path) (e :: post) pre d effs d1 hpre
  have hstep : fetch_loop download (clean_path local_path) (e :: post) d1
      = ([], d1, Except.error (ETLError.keyError "@microsoft.graph.downloadUrl")) := by
    rw [fetch_loop, hfile, hurl]
    simp [getKey]
  simp only [fetch, if_pos rfl]
  rw [happ, hstep]
  simp

/-- Witness for C3 at a concrete listing: one good entry, then the URL-less
file entry, then another entry that is never reached. -/
theorem C3_missing_url_aborts_witness :
    fetch_loop (fun _ => (200, "data")) (clean_path "out")
        [⟨some "g", some "0", some true, some "w"⟩] false
      = ([Effect.getReq "w", Effect.mkdir "out", Effect.write "out/g" "data"],
         true, Except.ok ()) ∧
    fetch 200 ([⟨some "g", some "0", some true, some "w"⟩] ++
               ⟨some "f1", some "1", some true, none⟩ ::
               [⟨some "f2", some "2", some true, some "u"⟩])
        (fun _ => (200, "data")) "out" false
      = ([Effect.getReq "w", Effect.mkdir "out", Effect.write "out/g" "data"],
         Except.error (ETLError.keyError "@microsoft.graph.downloadUrl")) := by
  refine ⟨by decide, ?_⟩
  exact C3_missing_url_aborts (fun _ => (200, "data")) "out" false
    [⟨some "g", some "0", some true, some "w"⟩]
    [⟨some "f2", some "2", some true, some "u"⟩]
    ⟨some "f1", some "1", some true, none⟩
    [Effect.getReq "w", Effect.mkdir "out", Effect.write "out/g" "data"] true
    rfl rfl (by decide)

/-- C6: when the download request for some entry returns a non-success
status, `fetch` raises immediately at that entry: the effect trace ends with
that download request, so no download request is issued and no local file is
written for any later entry. -/
theorem C6_fetch_fail_fast (download : String → Nat × String) (local_path : String)
    (d : Bool) (pre post : List Entry) (e : Entry) (effs : List Effect) (d1 : Bool)
    (u nm : String)
    (hfile : e.file = some true) (hurl : e.downloadUrl = some u)
    (hname : e.name = some nm) (hstatus : (download u).1 ≠ 200)
    (hpre : fetch_loop download (clean_path local_path) pre d = (effs, d1, Except.ok ())) :
    fetch 200 (pre ++ e :: post) download local_path d
      = (effs ++ [Effect.getReq u],
         Except.error (ETLError.badFetchResponse nm (download u).1)) := by
  have happ := fetch_loop_ok_append download (clean_path local_path) (e :: post) pre d effs d1 hpre
  have hstep : fetch_loop download (clean_path local_path) (e :: post) d1
      = ([Effect.getReq u], d1,
         Except.error (ETLError.badFetchResponse nm (download u).1)) := by
    rw [fetch_loop, hfile, hurl, hname]
    simp [getKey, hstatus]
  simp only [fetch, if_pos rfl]
  rw [happ, hstep]
  simp

/-- Witness for C6 at a concrete listing: one good entry, a failing entry,
then an entry that is never reached. -/
theorem C6_fetch_fail_fast_witness :
    ((fun v => if v = "bad" then (500, "") else (200, "data")) "bad").1 ≠ 200 ∧
    fetch 200 ([⟨some "g", some "0", some true, some "w"⟩] ++
               ⟨some "f1", some "1", some true, some "bad"⟩ ::
               [⟨some "f2", some "2", some true, some "u"⟩])
        (fun v => if v = "bad" then (500, "") else (200, "data")) "out" false
      = ([Effect.getReq "w", Effect.mkdir "out", Effect.write "out/g" "data"] ++
          [Effect.getReq "bad"],
         Except.error (ETLError.badFetchResponse "f1"
           ((fun v => if v = "bad" then (500, "") else (200, "data")) "bad").1)) := by
  refine ⟨by decide, ?_⟩
  exact C6_fetch_fail_fast (fun v => if v = "bad" then (500, "") else (200, "data")) "out" false
    [⟨some "g", some "0", some true, some "w"⟩]
    [⟨some "f2", some "2", some true, some "u"⟩]
    ⟨some "f1", some "1", some true, some "bad"⟩
    [Effect.getReq "w", Effect.mkdir "out", Effect.write "out/g" "data"] true
    "bad" "f1" rfl rfl rfl (by decide) (by decide)

/-- Decimal rendering of a natural number cast to `Int` agrees with its
rendering as a natural number. -/
lemma toString_natCast_int (m : Nat) : toString ((m : Int)) = toString m := rfl

/-- C4: for a local file of size `n ≥ 1`, `upload` issues exactly one PUT of
the whole content to the upload URL, with `Content-Length` the decimal
string of `n` and `Content-Range` the string `bytes 0-<n-1>/<n>`; a 201
response status yields success and any other status raises the
upload-transfer error. -/
theorem C4_upload_single_put (base_url remote_path file_name uploadUrl content : String)
    (n put_status : Nat) (hn : 1 ≤ n) :
    upload base_url remote_path file_name 200 (some uploadUrl) n content put_status
      = ([Effect.postReq (upload_session_url base_url remote_path file_name),
          Effect.putReq uploadUrl (toString n)
            ("bytes 0-" ++ toString (n - 1) ++ "/" ++ toString n) content],
         if put_status = 201 then Except.ok ()
         else Except.error (ETLError.uploadFailed put_status)) := by
  have h1 : ((n : Int) - 1) = ((n - 1 : Nat) : Int) := by omega
  simp only [upload, if_pos rfl, h1, toString_natCast_int]
  simp

/-- Witness for C4 at the 10-byte file of the spec example. -/
theorem C4_upload_single_put_witness :
    1 ≤ 10 ∧
    upload "B" "r" "f" 200 (some "u") 10 "0123456789" 201
      = ([Effect.postReq (upload_session_url "B" "r" "f"),
          Effect.putReq "u" "10" "bytes 0-9/10" "0123456789"], Except.ok ()) := by
  refine ⟨by decide, ?_⟩
  have h := C4_upload_single_put "B" "r" "f" "u" "0123456789" 10 201 (by decide)
  rw [h]
  rfl

/-- Filtering helper: when every entry carries the `file` key and every
truthy-file entry carries a `name` key, the `filenames` loop returns exactly
the names of the truthy-file entries, in encounter order. -/
lemma filenames_loop_filter (l : List Entry)
    (h1 : ∀ e ∈ l, e.file.isSome = true)
    (h2 : ∀ e ∈ l, e.file = some true → e.name.isSome = true) :
    filenames_loop l =
      Except.ok ((l.filter (fun e => e.file == some true)).filterMap Entry.name) := by
  induction l with
  | nil => simp [filenames_loop]
  | cons x xs ih =>
    have h1' : ∀ e ∈ xs, e.file.isSome = true := fun e he => h1 e (List.mem_cons_of_mem x he)
    have h2' : ∀ e ∈ xs, e.file = some true → e.name.isSome = true :=
      fun e he => h2 e (List.mem_cons_of_mem x he)
    have hrec := ih h1' h2'
    obtain ⟨f, hf⟩ := Option.isSome_iff_exists.mp (h1 x (List.mem_cons_self x xs))
    cases f with
    | true =>
      obtain ⟨nm, hnm⟩ := Option.isSome_iff_exists.mp (h2 x (List.mem_cons_self x xs) hf)
      rw [filenames_loop, hf, hnm]
      simp only [getKey, if_pos rfl]
      rw [hrec]
      have hpx : (x.file == some true) = true := by simp [hf]
      simp [List.filter_cons, hpx, List.filterMap_cons, hnm]
    | false =>
      rw [filenames_loop, hf]
      simp only [getKey, Bool.false_eq_true, if_false]
      rw [hrec]
      have hpx : (x.file == some true) = false := by simp [hf]
      simp [List.filter_cons, hpx]

/-- C5: on a successful listing, `filenames` returns exactly the names of
the entries whose file flag is truthy, in the order the entries appear, and
excludes every entry whose file flag is falsy. -/
theorem C5_filenames_order (entries : List Entry)
    (h1 : ∀ e ∈ entries, e.file.isSome = true)
    (h2 : ∀ e ∈ entries, e.file = some true → e.name.isSome = true) :
    filenames 200 entries =
      Except.ok ((entries.filter (fun e => e.file == some true)).filterMap Entry.name) := by
  simp only [filenames, if_pos rfl]
  exact filenames_loop_filter entries h1 h2

/-- Witness for C5 at a concrete mixed listing: file entries `a` and `c`
are kept in order, the folder entry `b` is excluded. -/
theorem C5_filenames_order_witness :
    (∀ e ∈ ([⟨some "a", some "1", some true, none⟩,
             ⟨some "b", some "2", some false, none⟩,
             ⟨some "c", some "3", some true, none⟩] : List Entry), e.file.isSome = true) ∧
    filenames 200 [⟨some "a", some "1", some true, none⟩,
                   ⟨some "b", some "2", some false, none⟩,
                   ⟨some "c", some "3", some true, none⟩]
      = Except.ok ["a", "c"] := by
  refine ⟨by decide, ?_⟩
  have h := C5_filenames_order
    [⟨some "a", some "1", some true, none⟩,
     ⟨some "b", some "2", some false, none⟩,
     ⟨some "c", some "3", some true, none⟩] (by decide) (by decide)
  rw [h]
  decide

/-- Heads surviving `dropWhile` fail the predicate. -/
lemma head_dropWhile_false {α : Type} (p : α → Bool) :
    ∀ (l : List α) (x : α), (l.dropWhile p).head? = some x → p x = false := by
  intro l
  induction l with
  | nil => intro x h; simp [List.dropWhile] at h
  | cons c t ih =>
    intro x h
    rw [List.dropWhile_cons] at h
    by_cases hc : p c = true
    · rw [if_pos hc] at h
      exact ih x h
    · rw [if_neg hc] at h
      simp only [List.head?_cons, Option.some.injEq] at h
      subst h
      exact Bool.not_eq_true _ ▸ hc

/-- Characterization of the slash stripping done by `clean_path`: the input
splits into a run of slash characters, the cleaned core, and a run of slash
characters, and the core neither starts nor ends with a slash character. -/
lemma clean_path_spec (s : String) :
    ∃ a b : List Char,
      (∀ c ∈ a, isSlash c = true) ∧ (∀ c ∈ b, isSlash c = true) ∧
      s.data = a ++ (clean_path s).data ++ b ∧
      (∀ c, (clean_path s).data.head? = some c → isSlash c = false) ∧
      (∀ c, (clean_path s).data.getLast? = some c → isSlash c = false) := by
  have hm2 : s.data.dropWhile isSlash
      = ((s.data.dropWhile isSlash).reverse.takeWhile isSlash
          ++ (s.data.dropWhile isSlash).reverse.dropWhile isSlash).reverse := by
    rw [List.takeWhile_append_dropWhile, List.reverse_reverse]
  have hmm : (clean_path s).data
      = ((s.data.dropWhile isSlash).reverse.dropWhile isSlash).reverse := rfl
  have hb : s.data.dropWhile isSlash
      = (clean_path s).data
        ++ ((s.data.dropWhile isSlash).reverse.takeWhile isSlash).reverse := by
    conv_lhs => rw [hm2]
    rw [List.reverse_append, hmm]
  refine ⟨s.data.takeWhile isSlash,
    ((s.data.dropWhile isSlash).reverse.takeWhile isSlash).reverse, ?_, ?_, ?_, ?_, ?_⟩
  · exact fun c hc => List.mem_takeWhile_imp hc
  · intro c hc
    rw [List.mem_reverse] at hc
    exact List.mem_takeWhile_imp hc
  · have hsplit : s.data = s.data.takeWhile isSlash ++ s.data.dropWhile isSlash :=
      (List.takeWhile_append_dropWhile (p := isSlash) (l := s.data)).symm
    rw [List.append_assoc]
    exact hsplit.trans (congrArg (fun t => s.data.takeWhile isSlash ++ t) hb)
  · intro c hc
    have hhead : (s.data.dropWhile isSlash).head? = some c := by
      rw [hb]
      cases hcl : (clean_path s).data with
      | nil => rw [hcl] at hc; simp at hc
      | cons y ys =>
        rw [hcl] at hc
        simp only [List.head?_cons, Option.some.injEq] at hc
        subst hc
        simp
    exact head_dropWhile_false isSlash s.data c hhead
  · intro c hc
    rw [hmm, List.getLast?_reverse] at hc
    exact head_dropWhile_false isSlash _ c hc

/-- Hypothesis under which `fetch` fully succeeds on an entry: it is marked
as a file, carries a name and a download URL, and the download of that URL
returns status 200. -/
abbrev entryFetchable (download : String → Nat × String) (e : Entry) : Prop :=
  e.file = some true ∧ e.name.isSome = true ∧ e.downloadUrl.isSome = true ∧
    (download (e.downloadUrl.getD "")).1 = 200

/-- All-success behaviour of the `fetch` loop: the result is success, every
write goes to `joinPath cp <entry name>` with the downloaded body, every
created directory is `cp`, every entry gets its write, no directory is
created when `cp` already exists, and the directory is created when it does
not yet exist and some entry is processed. -/
lemma fetch_loop_all_ok (download : String → Nat × String) (cp : String)
    (l : List Entry) :
    ∀ (d : Bool), (∀ e ∈ l, entryFetchable download e) →
      (fetch_loop download cp l d).2.2 = Except.ok () ∧
      (∀ p c, Effect.write p c ∈ (fetch_loop download cp l d).1 →
        ∃ e, e ∈ l ∧ ∃ nm u, e.name = some nm ∧ e.downloadUrl = some u ∧
          p = joinPath cp nm ∧ c = (download u).2) ∧
      (∀ q, Effect.mkdir q ∈ (fetch_loop download cp l d).1 → q = cp) ∧
      (∀ e, e ∈ l → ∀ nm u, e.name = some nm → e.downloadUrl = some u →
        Effect.write (joinPath cp nm) (download u).2 ∈ (fetch_loop download cp l d).1) ∧
      (d = true → ∀ q, Effect.mkdir q ∉ (fetch_loop download cp l d).1) ∧
      (d = false → l ≠ [] → Effect.mkdir cp ∈ (fetch_loop download cp l d).1) := by
  induction l with
  | nil =>
    intro d _
    refine ⟨rfl, ?_, ?_, ?_, ?_, ?_⟩ <;> simp [fetch_loop]
  | cons x xs ih =>
    intro d h
    obtain ⟨hxf, hxn, hxu, hxs⟩ := h x (List.mem_cons_self x xs)
    obtain ⟨nm, hnm⟩ := Option.isSome_iff_exists.mp hxn
    obtain ⟨u, hu⟩ := Option.isSome_iff_exists.mp hxu
    rw [hu] at hxs
    simp only [Option.getD_some] at hxs
    obtain ⟨hA, hB, hC, hD, hE, hF⟩ := ih true (fun e he => h e (List.mem_cons_of_mem x he))
    have key : fetch_loop download cp (x :: xs) d
        = (Effect.getReq u :: ((if d then [] else [Effect.mkdir cp])
            ++ Effect.write (joinPath cp nm) (download u).2
              :: (fetch_loop download cp xs true).1),
           (fetch_loop download cp xs true).2.1,
           (fetch_loop download cp xs true).2.2) := by
      rw [fetch_loop, hxf, hu, hnm]
      simp [getKey, hxs]
    rw [key]
    cases d with
    | true =>
      simp only [if_true]
      refine ⟨hA, ?_, ?_, ?_, ?_, ?_⟩
      · intro p c hpc
        simp only [List.nil_append, List.mem_cons] at hpc
        rcases hpc with h0 | h0 | hrest
        · exact Effect.noConfusion h0
        · injection h0 with hp hc
          exact ⟨x, List.mem_cons_self x xs, nm, u, hnm, hu, hp, hc⟩
        · obtain ⟨e, he, rest⟩ := hB p c hrest
          exact ⟨e, List.mem_cons_of_mem x he, rest⟩
      · intro q hq
        simp only [List.nil_append, List.mem_cons] at hq
        rcases hq with h0 | h0 | hrest
        · exact Effect.noConfusion h0
        · exact Effect.noConfusion h0
        · exact hC q hrest
      · intro e he nm2 u2 hn2 hu2
        rcases List.mem_cons.mp he with rfl | hin
        · rw [hnm] at hn2
          rw [hu] at hu2
          injection hn2 with hn2
          injection hu2 with hu2
          subst hn2
          subst hu2
          simp
        · have hmem := hD e hin nm2 u2 hn2 hu2
          simp only [List.nil_append, List.mem_cons]
          right; right
          exact hmem
      · intro _ q
        simp only [List.nil_append, List.mem_cons]
        push_neg
        exact ⟨Effect.noConfusion, Effect.noConfusion, fun hin => hE rfl q hin⟩
      · intro hcontra
        exact Bool.noConfusion hcontra
    | false =>
      simp only [Bool.false_eq_true, if_false]
      refine ⟨hA, ?_, ?_, ?_, ?_, ?_⟩
      · intro p c hpc
        simp only [List.cons_append, List.nil_append, List.mem_cons] at hpc
        cases hpc with
        | inl h0 => exact Effect.noConfusion h0
        | inr hpc =>
          cases hpc with
          | inl h0 => exact Effect.noConfusion h0
          | inr hpc =>
            cases hpc with
            | inl h0 =>
              injection h0 with hp hc
              exact ⟨x, List.mem_cons_self x xs, nm, u, hnm, hu, hp, hc⟩
            | inr hrest =>
              obtain ⟨e, he, rest⟩ := hB p c hrest
              exact ⟨e, List.mem_cons_of_mem x he, rest⟩
      · intro q hq
        simp only [List.cons_append, List.nil_append, List.mem_cons] at hq
        cases hq with
        | inl h0 => exact Effect.noConfusion h0
        | inr hq =>
          cases hq with
          | inl h0 => exact Effect.mkdir.inj h0
          | inr hq =>
            cases hq with
            | inl h0 => exact Effect.noConfusion h0
            | inr hrest => exact hC q hrest
      · intro e he nm2 u2 hn2 hu2
        rcases List.mem_cons.mp he with rfl | hin
        · rw [hnm] at hn2
          rw [hu] at hu2
          injection hn2 with hn2
          injection hu2 with hu2
          subst hn2
          subst hu2
          simp
        · have hmem := hD e hin nm2 u2 hn2 hu2
          simp only [List.cons_append, List.nil_append, List.mem_cons]
          right; right; right
          exact hmem
      · intro hcontra
        exact hcontra.elim
      · intro _ _
        simp

/-- C8: `fetch` strips all leading and trailing slash and backslash
characters from `local_path` (the cleaned directory is the input minus a
slash run at each end and itself neither starts nor ends with a slash),
creates the resulting directory exactly when it does not already exist, and
writes each downloaded entry body to a file named after the entry inside
that directory. -/
theorem C8_fetch_cleans_and_writes (download : String → Nat × String) (local_path : String)
    (d : Bool) (entries : List Entry)
    (h : ∀ e ∈ entries, entryFetchable download e) :
    (∃ a b : List Char,
      (∀ c ∈ a, isSlash c = true) ∧ (∀ c ∈ b, isSlash c = true) ∧
      local_path.data = a ++ (clean_path local_path).data ++ b ∧
      (∀ c, (clean_path local_path).data.head? = some c → isSlash c = false) ∧
      (∀ c, (clean_path local_path).data.getLast? = some c → isSlash c = false)) ∧
    (fetch 200 entries download local_path d).2 = Except.ok () ∧
    (∀ e, e ∈ entries → ∀ nm u, e.name = some nm → e.downloadUrl = some u →
      Effect.write (joinPath (clean_path local_path) nm) (download u).2
        ∈ (fetch 200 entries download local_path d).1) ∧
    (∀ p c, Effect.write p c ∈ (fetch 200 entries download local_path d).1 →
      ∃ e, e ∈ entries ∧ ∃ nm u, e.name = some nm ∧ e.downloadUrl = some u ∧
        p = joinPath (clean_path local_path) nm ∧ c = (download u).2) ∧
    (∀ q, Effect.mkdir q ∈ (fetch 200 entries download local_path d).1 →
      q = clean_path local_path) ∧
    (d = false → entries ≠ [] →
      Effect.mkdir (clean_path local_path) ∈ (fetch 200 entries download local_path d).1) ∧
    (d = true → ∀ q, Effect.mkdir q ∉ (fetch 200 entries download local_path d).1) := by
  obtain ⟨hA, hB, hC, hD, hE, hF⟩ :=
    fetch_loop_all_ok download (clean_path local_path) entries d h
  have h1 : (fetch 200 entries download local_path d).1
      = (fetch_loop download (clean_path local_path) entries d).1 := by
    simp [fetch]
  have h2 : (fetch 200 entries download local_path d).2
      = (fetch_loop download (clean_path local_path) entries d).2.2 := by
    simp [fetch]
  rw [h1, h2]
  exact ⟨clean_path_spec local_path, hA, hD, hB, hC, hF, hE⟩

/-- Witness for C8 at a concrete fetch: `local_path` is `/out/`, the
directory does not yet exist, and one file entry downloads successfully. -/
theorem C8_fetch_cleans_and_writes_witness :
    (∀ e ∈ ([⟨some "f", some "1", some true, some "u"⟩] : List Entry),
      entryFetchable (fun _ => (200, "data")) e) ∧
    ((∃ a b : List Char,
      (∀ c ∈ a, isSlash c = true) ∧ (∀ c ∈ b, isSlash c = true) ∧
      ("/out/" : String).data = a ++ (clean_path "/out/").data ++ b ∧
      (∀ c, (clean_path "/out/").data.head? = some c → isSlash c = false) ∧
      (∀ c, (clean_path "/out/").data.getLast? = some c → isSlash c = false)) ∧
    (fetch 200 [⟨some "f", some "1", some true, some "u"⟩]
        (fun _ => (200, "data")) "/out/" false).2 = Except.ok () ∧
    (∀ e, e ∈ ([⟨some "f", some "1", some true, some "u"⟩] : List Entry) →
      ∀ nm u, e.name = some nm → e.downloadUrl = some u →
      Effect.write (joinPath (clean_path "/out/") nm) ((fun _ => (200, "data")) u).2
        ∈ (fetch 200 [⟨some "f", some "1", some true, some "u"⟩]
            (fun _ => (200, "data")) "/out/" false).1) ∧
    (∀ p c, Effect.write p c ∈ (fetch 200 [⟨some "f", some "1", some true, some "u"⟩]
        (fun _ => (200, "data")) "/out/" false).1 →
      ∃ e, e ∈ ([⟨some "f", some "1", some true, some "u"⟩] : List Entry) ∧
        ∃ nm u, e.name = some nm ∧ e.downloadUrl = some u ∧
        p = joinPath (clean_path "/out/") nm ∧ c = ((fun _ => (200, "data")) u).2) ∧
    (∀ q, Effect.mkdir q ∈ (fetch 200 [⟨some "f", some "1", some true, some "u"⟩]
        (fun _ => (200, "data")) "/out/" false).1 → q = clean_path "/out/") ∧
    (false = false → ([⟨some "f", some "1", some true, some "u"⟩] : List Entry) ≠ [] →
      Effect.mkdir (clean_path "/out/") ∈ (fetch 200 [⟨some "f", some "1", some true, some "u"⟩]
          (fun _ => (200, "data")) "/out/" false).1) ∧
    (false = true → ∀ q, Effect.mkdir q ∉ (fetch 200 [⟨some "f", some "1", some true, some "u"⟩]
        (fun _ => (200, "data")) "/out/" false).1)) := by
  refine ⟨by decide, ?_⟩
  exact C8_fetch_cleans_and_writes (fun _ => (200, "data")) "/out/" false
    [⟨some "f", some "1", some true, some "u"⟩] (by decide)

end SimpleGraphETL
